import Mathlib

/-!
Verification of the asset download / memory-lane subsystem of
`src/server/src/domain/asset/asset.service.ts`.

The TypeScript service is shallowly embedded: external collaborators
(`IAssetRepository.getByIds`, the access gate, the zip writer) are taken as
function parameters or step traces; JS numbers are modelled as `Int`
(byte sizes) or `Nat` (counters); nullable values as `Option`.

A JS-specific point that the embedding models faithfully: in
`getDownloadInfo` the per-page flush `archives.push(archive)` pushes a
*reference* to the still-open accumulator object without resetting it, so the
same object can appear several times in the output array and later mutations
are visible at every earlier position.  `PackState.openPushes` counts how many
times the currently open accumulator object has already been pushed; when the
object is finally frozen its final value is emitted at every pushed position
(the positions are consecutive because nothing else is pushed in between).
-/

/-- One row of the asset table, restricted to the fields `getDownloadInfo`
reads: `id`, `livePhotoVideoId`, `exifInfo?.fileSizeInByte`. -/
structure AssetRow where
  id : String
  livePhotoVideoId : Option String
  fileSizeInByte : Option Int
deriving DecidableEq

/-- `Number(asset.exifInfo?.fileSizeInByte || 0)`: a missing or null size
contributes 0. -/
def jsSize (a : AssetRow) : Int :=
  a.fileSizeInByte.getD 0

/-- `DownloadArchiveInfo` from the service: a mutable accumulator with a
running byte size and the asset ids collected so far. -/
structure DownloadArchiveInfo where
  size : Int
  assetIds : List String
deriving DecidableEq

/-- `HumanReadableSize.GiB` from `domain.util`. -/
def humanReadableGiB : Int := 1024 * 1024 * 1024

/-- `dto.archiveSize || HumanReadableSize.GiB * 4`: an absent or zero (falsy)
caller threshold is replaced by the 4 GiB default; any non-zero value,
including negative ones, is kept. -/
def targetSizeOf (archiveSize : Option Int) : Int :=
  match archiveSize with
  | some v => if v = 0 then 4 * humanReadableGiB else v
  | none => 4 * humanReadableGiB

/-- The loop state of `getDownloadInfo`: the objects already pushed to
`archives` and frozen (`archives` field, with multiplicity), the currently
open accumulator object, and how many times that open object itself has
already been pushed to the JS `archives` array by page-boundary flushes. -/
structure PackState where
  archives : List DownloadArchiveInfo
  openArchive : DownloadArchiveInfo
  openPushes : Nat
deriving DecidableEq

/-- The body of the inner `for (const asset of assets)` loop: add the asset's
size and id to the open accumulator; if the accumulator is now strictly over
the target, push it (it is already present `openPushes` times, all positions
showing its final value) and start a fresh accumulator object. -/
def addAsset (targetSize : Int) (st : PackState) (a : AssetRow) : PackState :=
  let size := st.openArchive.size + jsSize a
  let ids := st.openArchive.assetIds ++ [a.id]
  if targetSize < size then
    { archives := st.archives ++ List.replicate (st.openPushes + 1) { size := size, assetIds := ids }
      openArchive := { size := 0, assetIds := [] }
      openPushes := 0 }
  else
    { st with openArchive := { size := size, assetIds := ids } }

/-- `assets.map((asset) => asset.livePhotoVideoId).filter((id): id is string => !!id)`:
the present, non-empty (truthy) live-photo motion ids of a page. -/
def motionIdsOf (page : List AssetRow) : List String :=
  (page.filterMap (fun a => a.livePhotoVideoId)).filter (fun s => decide (s ≠ ""))

/-- Live-photo resolution for one page: when the page references motion
assets, the repository rows returned by `getByIds` are appended to the end of
the page's working list. -/
def resolvePage (getByIds : List String → List AssetRow) (page : List AssetRow) : List AssetRow :=
  let motionIds := motionIdsOf page
  if 0 < motionIds.length then page ++ getByIds motionIds else page

/-- The per-page flush `if (archive.assetIds.length > 0) archives.push(archive)`:
the open accumulator object is pushed (but not reset), recorded by
incrementing `openPushes`. -/
def pageEnd (st : PackState) : PackState :=
  if 0 < st.openArchive.assetIds.length then { st with openPushes := st.openPushes + 1 } else st

/-- One iteration of `for await (const assets of assetPagination)`. -/
def processPage (getByIds : List String → List AssetRow) (targetSize : Int)
    (st : PackState) (page : List AssetRow) : PackState :=
  pageEnd ((resolvePage getByIds page).foldl (addAsset targetSize) st)

/-- The contents of the JS `archives` array at the end of the loop: the frozen
objects followed by `openPushes` references to the still-open accumulator, all
showing its final value. -/
def finalArchives (st : PackState) : List DownloadArchiveInfo :=
  st.archives ++ List.replicate st.openPushes st.openArchive

/-- The `DownloadResponseDto` returned by `getDownloadInfo`. -/
structure DownloadResponseDto where
  totalSize : Int
  archives : List DownloadArchiveInfo
deriving DecidableEq

/-- The initial `archive = { size: 0, assetIds: [] }` accumulator state. -/
def initPackState : PackState :=
  { archives := [], openArchive := { size := 0, assetIds := [] }, openPushes := 0 }

/-- `AssetService.getDownloadInfo`, with the asset repository's `getByIds`
abstracted as a function and the async pagination materialised as the list of
pages it yields. -/
def getDownloadInfo (getByIds : List String → List AssetRow) (archiveSize : Option Int)
    (pages : List (List AssetRow)) : DownloadResponseDto :=
  let t := targetSizeOf archiveSize
  let st := pages.foldl (processPage getByIds t) initPackState
  let archives := finalArchives st
  { totalSize := archives.foldl (fun total item => total + item.size) 0
    archives := archives }

/-- All asset ids of a response, in archive order. -/
def responseIds (r : DownloadResponseDto) : List String :=
  (r.archives.map (fun a => a.assetIds)).flatten

/-- The working list obtained from every page, concatenated. -/
def resolvedAssets (getByIds : List String → List AssetRow) (pages : List (List AssetRow)) :
    List AssetRow :=
  (pages.map (resolvePage getByIds)).flatten

/-- All ids currently recorded in a pack state: the frozen archives plus the
open accumulator. -/
def stateIds (st : PackState) : List String :=
  (st.archives.map (fun a => a.assetIds)).flatten ++ st.openArchive.assetIds

/-! ## Selection of the download asset source (`getDownloadAssets`) -/

/-- The three selection modes of `getDownloadAssets`. -/
inductive DownloadMode where
  | byAssetIds
  | byAlbum
  | byUser
deriving DecidableEq

/-- The externally visible calls `getDownloadAssets` makes, in order: one
permission check on the access gate, then one asset-store access (for the
album/user modes the store access is the start of the paged retrieval). -/
inductive DownloadStep where
  | checkAssetDownload
  | checkAlbumDownload
  | checkLibraryDownload
  | storeGetByIds
  | storePageByAlbum
  | storePageByUser
deriving DecidableEq

/-- Which steps touch the asset store (as opposed to the access gate). -/
def isStoreStep : DownloadStep → Bool
  | DownloadStep.storeGetByIds => true
  | DownloadStep.storePageByAlbum => true
  | DownloadStep.storePageByUser => true
  | _ => false

/-- The `DownloadDto` fields the service reads. -/
structure DownloadDto where
  assetIds : Option (List String)
  albumId : Option String
  userId : Option String
  archiveSize : Option Int
deriving DecidableEq

/-- JS truthiness of an optional array: a present array is truthy even when
empty. -/
def jsTruthyList (o : Option (List String)) : Bool :=
  match o with
  | some _ => true
  | none => false

/-- JS truthiness of an optional string: present and non-empty. -/
def jsTruthyStr (o : Option String) : Bool :=
  match o with
  | some s => decide (s ≠ "")
  | none => false

/-- `AssetService.getDownloadAssets`: the trace of external calls performed
together with the outcome (selected mode, or the `BadRequestException`).  The
`if (dto.assetIds) / if (dto.albumId) / if (dto.userId)` cascade is JS
truthiness on the optional fields; when none is truthy the exception is thrown
before any gate or store call, so the trace is empty. -/
def getDownloadAssets (dto : DownloadDto) : List DownloadStep × Except String DownloadMode :=
  if jsTruthyList dto.assetIds then
    ([DownloadStep.checkAssetDownload, DownloadStep.storeGetByIds],
     Except.ok DownloadMode.byAssetIds)
  else if jsTruthyStr dto.albumId then
    ([DownloadStep.checkAlbumDownload, DownloadStep.storePageByAlbum],
     Except.ok DownloadMode.byAlbum)
  else if jsTruthyStr dto.userId then
    ([DownloadStep.checkLibraryDownload, DownloadStep.storePageByUser],
     Except.ok DownloadMode.byUser)
  else
    ([], Except.error "assetIds, albumId, or userId is required")

/-! ## Memory lane (`getMemoryLane`) -/

/-- `MemoryLaneResponseDto`: a title and the mapped assets of one year. -/
structure MemoryLaneResponseDto (β : Type) where
  title : String
  assets : List β
deriving DecidableEq

/-- The title template of `onRequest`:
`` `${yearsAgo} year${yearsAgo > 1 ? 's' : ''} since...` ``. -/
def memoryLaneTitle (yearsAgo : Nat) : String :=
  toString yearsAgo ++ " year" ++ (if yearsAgo > 1 then "s" else "") ++ " since..."

/-- The `onRequest` closure of `getMemoryLane`: one date lookup (abstracted as
a function of `yearsAgo`, since the anchor date is fixed per call) followed by
`mapAsset` on each row. -/
def onRequest {α β : Type} (getByDate : Nat → List α) (mapAsset : α → β)
    (yearsAgo : Nat) : MemoryLaneResponseDto β :=
  { title := memoryLaneTitle yearsAgo, assets := (getByDate yearsAgo).map mapAsset }

/-- The `requests` array built by `for (let i = 1; i <= dto.years; i++)`:
one lookup per `yearsAgo` in `1..years` (none when `years ≤ 0`). -/
def memoryLaneRequests {α β : Type} (getByDate : Nat → List α) (mapAsset : α → β)
    (years : Int) : List (MemoryLaneResponseDto β) :=
  (List.range years.toNat).map (fun i => onRequest getByDate mapAsset (i + 1))

/-- `AssetService.getMemoryLane`: `Promise.all` keeps the request order, then
entries with an empty asset list are filtered out. -/
def getMemoryLane {α β : Type} (getByDate : Nat → List α) (mapAsset : α → β)
    (years : Int) : List (MemoryLaneResponseDto β) :=
  (memoryLaneRequests getByDate mapAsset years).filter (fun result => decide (result.assets.length > 0))

/-- Modelled from the spec: the `MemoryLaneDto` request validation (its file,
`dto.ts`, is not part of the sources; only the import is) — per the spec's
error taxonomy, "`InvalidRequest` (… non-positive year count)". -/
def validateMemoryLaneYears (years : Int) : Except String Unit :=
  if years ≤ 0 then Except.error "InvalidRequest" else Except.ok ()

/-- The memory-lane operation behind its request validation: validation first,
then the service method. -/
def getMemoryLaneChecked {α β : Type} (getByDate : Nat → List α) (mapAsset : α → β)
    (years : Int) : Except String (List (MemoryLaneResponseDto β)) :=
  match validateMemoryLaneYears years with
  | Except.error e => Except.error e
  | Except.ok _ => Except.ok (getMemoryLane getByDate mapAsset years)

/-! ## Archive entry naming (`downloadArchive`)

Strings are handled at the character-list level here; `originalFileName` is
the display name without extension, `originalPath` the stored path. -/

/-- The asset fields `downloadArchive` destructures. -/
structure ArchiveAsset where
  originalPath : List Char
  originalFileName : List Char
deriving DecidableEq

/-- Node's `path.extname` ignores trailing separators. -/
def stripTrailingSlashes (p : List Char) : List Char :=
  (p.reverse.dropWhile (fun c => c = '/')).reverse

/-- The basename: everything after the last `/` (trailing `/` stripped). -/
def basenameOf (p : List Char) : List Char :=
  (stripTrailingSlashes p).foldl (fun acc c => if c = '/' then [] else acc ++ [c]) []

/-- Index of the last `.` in a character list, if any. -/
def lastDotIdx : List Char → Option Nat
  | [] => none
  | c :: rest =>
    match lastDotIdx rest with
    | some i => some (i + 1)
    | none => if c = '.' then some 0 else none

/-- `path.extname` on a basename: the suffix from the last dot, except that a
dot-less name, a name whose only dot is the leading character, and the name
`..` give the empty extension. -/
def extnameBase (b : List Char) : List Char :=
  match lastDotIdx b with
  | none => []
  | some 0 => []
  | some (i + 1) => if b = ['.', '.'] then [] else b.drop (i + 1)

/-- Node's `path.extname` (posix). -/
def extname (p : List Char) : List Char :=
  extnameBase (basenameOf p)

/-- Read of the `paths: Record<string, number>` collision map:
`paths[filename] || 0`. -/
def mapGet (m : List (List Char × Nat)) (k : List Char) : Nat :=
  match m with
  | [] => 0
  | (k', v) :: rest => if k' = k then v else mapGet rest k

/-- Write `paths[filename] = count + 1` into the collision map. -/
def mapSet (m : List (List Char × Nat)) (k : List Char) (v : Nat) : List (List Char × Nat) :=
  match m with
  | [] => [(k, v)]
  | (k', v') :: rest => if k' = k then (k, v) :: rest else (k', v') :: mapSet rest k v

/-- Decimal digits of a `Nat` (the JS template interpolation `${count}`),
fuel-structured so it computes by kernel reduction. -/
def natDigitsAux : Nat → Nat → List Char
  | 0, _ => []
  | fuel + 1, n =>
    if n < 10 then [Nat.digitChar n]
    else natDigitsAux fuel (n / 10) ++ [Nat.digitChar (n % 10)]

/-- Decimal representation of a `Nat` as characters. -/
def natDigits (n : Nat) : List Char :=
  natDigitsAux (n + 1) n

/-- Is the character a decimal digit `0`–`9`? -/
def isDig (c : Char) : Bool :=
  decide (48 ≤ c.toNat ∧ c.toNat ≤ 57)

/-- Decimal value of a digit string (left fold), inverse of `natDigits`. -/
def natVal (ds : List Char) : Nat :=
  ds.foldl (fun acc c => acc * 10 + (c.toNat - 48)) 0

/-- The loop body of `downloadArchive`: build `${originalFileName}${ext}`,
look the base name up in the collision map, bump the counter, and on a
repeated base name emit `${originalFileName}+${count}${ext}` instead. -/
def downloadEntryNamesGo (paths : List (List Char × Nat)) :
    List ArchiveAsset → List (List Char)
  | [] => []
  | a :: rest =>
    let ext := extname a.originalPath
    let base := a.originalFileName ++ ext
    let count := mapGet paths base
    let filename := if count = 0 then base else a.originalFileName ++ '+' :: (natDigits count ++ ext)
    filename :: downloadEntryNamesGo (mapSet paths base (count + 1)) rest

/-- The zip entry names produced by one `downloadArchive` invocation, in input
order (the collision map starts empty per invocation). -/
def downloadEntryNames (assets : List ArchiveAsset) : List (List Char) :=
  downloadEntryNamesGo [] assets

/-- The base name of an asset: `<displayName><ext>`. -/
def baseOf (a : ArchiveAsset) : List Char :=
  a.originalFileName ++ extname a.originalPath

/-- Stated from the spec's words, for comparison with `downloadEntryNames`:
the entry name of an asset given the assets that precede it — the base name,
or `<displayName>+<occurrenceIndex><ext>` where `occurrenceIndex` is the
number of earlier assets with the same base name. -/
def specEntryName (prev : List ArchiveAsset) (a : ArchiveAsset) : List Char :=
  let k := prev.countP (fun b => decide (baseOf b = baseOf a))
  if k = 0 then baseOf a
  else a.originalFileName ++ '+' :: (natDigits k ++ extname a.originalPath)

/-- Spec-side naming of a whole asset list, threading the processed prefix. -/
def specEntryNamesGo (prev : List ArchiveAsset) : List ArchiveAsset → List (List Char)
  | [] => []
  | a :: rest => specEntryName prev a :: specEntryNamesGo (prev ++ [a]) rest

/-- Spec-side naming of a whole asset list. -/
def specEntryNames (assets : List ArchiveAsset) : List (List Char) :=
  specEntryNamesGo [] assets

/-! ## Helper lemmas about the packing fold -/

/-- A caller-supplied non-zero threshold is used as-is. -/
theorem targetSizeOf_some_ne_zero (t : Int) (h : t ≠ 0) : targetSizeOf (some t) = t := by
  simp [targetSizeOf, h]

/-- Within a single page (no page-boundary flush yet), the asset fold keeps
`openPushes = 0` and only ever seals archives strictly over the target. -/
theorem foldl_addAsset_single_page (t : Int) :
    ∀ (l : List AssetRow) (st : PackState), st.openPushes = 0 →
      (∀ x ∈ st.archives, t < x.size) →
      (l.foldl (addAsset t) st).openPushes = 0 ∧
        ∀ x ∈ (l.foldl (addAsset t) st).archives, t < x.size := by
  intro l
  induction l with
  | nil => intro st h0 h1; exact ⟨h0, h1⟩
  | cons a rest ih =>
    intro st h0 h1
    rw [List.foldl_cons]
    apply ih
    · unfold addAsset
      by_cases hc : t < st.openArchive.size + jsSize a
      · rw [if_pos hc]
      · rw [if_neg hc]; exact h0
    · intro x hx
      unfold addAsset at hx
      by_cases hc : t < st.openArchive.size + jsSize a
      · rw [if_pos hc] at hx
        simp only [h0, List.mem_append, List.mem_replicate] at hx
        rcases hx with hx | ⟨-, hx⟩
        · exact h1 x hx
        · subst hx; exact hc
      · rw [if_neg hc] at hx
        exact h1 x hx

/-- With a negative target every asset immediately seals a fresh singleton
archive, so the fold maps each asset to its own archive. -/
theorem foldl_addAsset_neg_target (t : Int) (ht : t < 0) :
    ∀ (l : List AssetRow), (∀ x ∈ l, 0 ≤ jsSize x) →
      ∀ (res : List DownloadArchiveInfo),
        l.foldl (addAsset t)
            { archives := res, openArchive := { size := 0, assetIds := [] }, openPushes := 0 }
          = { archives := res ++ l.map (fun x => { size := jsSize x, assetIds := [x.id] }),
              openArchive := { size := 0, assetIds := [] }, openPushes := 0 } := by
  intro l
  induction l with
  | nil => intro _ res; simp
  | cons a rest ih =>
    intro hl res
    have ha : 0 ≤ jsSize a := hl a (by simp)
    have hseal : t < (0 : Int) + jsSize a := by omega
    have step :
        addAsset t { archives := res, openArchive := { size := 0, assetIds := [] }, openPushes := 0 } a
          = { archives := res ++ [{ size := jsSize a, assetIds := [a.id] }],
              openArchive := { size := 0, assetIds := [] }, openPushes := 0 } := by
      unfold addAsset
      rw [if_pos hseal]
      simp
    rw [List.foldl_cons, step, ih (fun x hx => hl x (by simp [hx])) _]
    simp

/-- With a negative target, a whole page leaves the accumulator empty and the
flush does nothing. -/
theorem processPage_neg_target (g : List String → List AssetRow) (t : Int) (ht : t < 0)
    (page : List AssetRow) (hp : ∀ x ∈ resolvePage g page, 0 ≤ jsSize x)
    (res : List DownloadArchiveInfo) :
    processPage g t { archives := res, openArchive := { size := 0, assetIds := [] }, openPushes := 0 } page
      = { archives := res ++ (resolvePage g page).map (fun x => { size := jsSize x, assetIds := [x.id] }),
          openArchive := { size := 0, assetIds := [] }, openPushes := 0 } := by
  unfold processPage
  rw [foldl_addAsset_neg_target t ht _ hp res]
  simp [pageEnd]

/-- With a negative target, the page fold produces exactly one singleton
archive per resolved asset, in order. -/
theorem foldl_processPage_neg_target (g : List String → List AssetRow) (t : Int) (ht : t < 0) :
    ∀ (pages : List (List AssetRow)), (∀ x ∈ resolvedAssets g pages, 0 ≤ jsSize x) →
      ∀ (res : List DownloadArchiveInfo),
        pages.foldl (processPage g t)
            { archives := res, openArchive := { size := 0, assetIds := [] }, openPushes := 0 }
          = { archives := res ++ (resolvedAssets g pages).map (fun x => { size := jsSize x, assetIds := [x.id] }),
              openArchive := { size := 0, assetIds := [] }, openPushes := 0 } := by
  intro pages
  induction pages with
  | nil => intro _ res; simp [resolvedAssets]
  | cons p rest ih =>
    intro hp res
    have hres : resolvedAssets g (p :: rest) = resolvePage g p ++ resolvedAssets g rest := by
      simp [resolvedAssets]
    rw [hres] at hp
    rw [List.foldl_cons,
      processPage_neg_target g t ht p (fun x hx => hp x (List.mem_append_left _ hx)) res,
      ih (fun x hx => hp x (List.mem_append_right _ hx)) _]
    simp [hres]

/-- The packing fold never records an empty archive and never counts a push of
an empty accumulator. -/
theorem foldl_addAsset_nonempty (t : Int) :
    ∀ (l : List AssetRow) (st : PackState),
      (∀ x ∈ st.archives, x.assetIds ≠ []) →
      (st.openPushes ≠ 0 → st.openArchive.assetIds ≠ []) →
      (∀ x ∈ (l.foldl (addAsset t) st).archives, x.assetIds ≠ []) ∧
        ((l.foldl (addAsset t) st).openPushes ≠ 0 →
          (l.foldl (addAsset t) st).openArchive.assetIds ≠ []) := by
  intro l
  induction l with
  | nil => intro st h1 h2; exact ⟨h1, h2⟩
  | cons a rest ih =>
    intro st h1 h2
    rw [List.foldl_cons]
    apply ih
    · intro x hx
      unfold addAsset at hx
      by_cases hc : t < st.openArchive.size + jsSize a
      · rw [if_pos hc] at hx
        simp only [List.mem_append, List.mem_replicate] at hx
        rcases hx with hx | ⟨-, hx⟩
        · exact h1 x hx
        · subst hx; simp
      · rw [if_neg hc] at hx
        exact h1 x hx
    · unfold addAsset
      by_cases hc : t < st.openArchive.size + jsSize a
      · rw [if_pos hc]; intro h; exact absurd rfl h
      · rw [if_neg hc]; intro _; simp

/-- The page flush preserves the non-emptiness invariant. -/
theorem pageEnd_nonempty (st : PackState)
    (h1 : ∀ x ∈ st.archives, x.assetIds ≠ [])
    (h2 : st.openPushes ≠ 0 → st.openArchive.assetIds ≠ []) :
    (∀ x ∈ (pageEnd st).archives, x.assetIds ≠ []) ∧
      ((pageEnd st).openPushes ≠ 0 → (pageEnd st).openArchive.assetIds ≠ []) := by
  unfold pageEnd
  by_cases h : 0 < st.openArchive.assetIds.length
  · rw [if_pos h]
    exact ⟨h1, fun _ => List.ne_nil_of_length_pos h⟩
  · rw [if_neg h]
    exact ⟨h1, h2⟩

/-- The whole page fold preserves the non-emptiness invariant. -/
theorem foldl_processPage_nonempty (g : List String → List AssetRow) (t : Int) :
    ∀ (pages : List (List AssetRow)) (st : PackState),
      (∀ x ∈ st.archives, x.assetIds ≠ []) →
      (st.openPushes ≠ 0 → st.openArchive.assetIds ≠ []) →
      (∀ x ∈ (pages.foldl (processPage g t) st).archives, x.assetIds ≠ []) ∧
        ((pages.foldl (processPage g t) st).openPushes ≠ 0 →
          (pages.foldl (processPage g t) st).openArchive.assetIds ≠ []) := by
  intro pages
  induction pages with
  | nil => intro st h1 h2; exact ⟨h1, h2⟩
  | cons p rest ih =>
    intro st h1 h2
    rw [List.foldl_cons]
    apply ih
    · exact (pageEnd_nonempty _ (foldl_addAsset_nonempty t _ st h1 h2).1
        (foldl_addAsset_nonempty t _ st h1 h2).2).1
    · exact (pageEnd_nonempty _ (foldl_addAsset_nonempty t _ st h1 h2).1
        (foldl_addAsset_nonempty t _ st h1 h2).2).2

/-! ## Membership of processed assets in the response -/

theorem stateIds_addAsset_mono (t : Int) (st : PackState) (a : AssetRow) :
    ∀ s ∈ stateIds st, s ∈ stateIds (addAsset t st a) := by
  intro s hs
  simp only [stateIds, List.mem_append] at hs
  unfold addAsset
  by_cases hc : t < st.openArchive.size + jsSize a
  · rw [if_pos hc]
    simp only [stateIds, List.map_append, List.flatten_append, List.append_nil, List.mem_append]
    rcases hs with hs | hs
    · exact Or.inl hs
    · right
      rw [List.map_replicate]
      exact List.mem_flatten.2 ⟨st.openArchive.assetIds ++ [a.id],
        List.mem_replicate.2 ⟨Nat.succ_ne_zero _, rfl⟩, List.mem_append_left _ hs⟩
  · rw [if_neg hc]
    simp only [stateIds, List.mem_append]
    rcases hs with hs | hs
    · exact Or.inl hs
    · exact Or.inr (Or.inl hs)

theorem stateIds_addAsset_self (t : Int) (st : PackState) (a : AssetRow) :
    a.id ∈ stateIds (addAsset t st a) := by
  unfold addAsset
  by_cases hc : t < st.openArchive.size + jsSize a
  · rw [if_pos hc]
    simp only [stateIds, List.map_append, List.flatten_append, List.append_nil, List.mem_append]
    right
    rw [List.map_replicate]
    exact List.mem_flatten.2 ⟨st.openArchive.assetIds ++ [a.id],
      List.mem_replicate.2 ⟨Nat.succ_ne_zero _, rfl⟩,
      List.mem_append_right _ (List.mem_singleton.2 rfl)⟩
  · rw [if_neg hc]
    simp only [stateIds, List.mem_append, List.mem_singleton]
    exact Or.inr (Or.inr trivial)

theorem stateIds_foldl_addAsset_mono (t : Int) :
    ∀ (l : List AssetRow) (st : PackState), ∀ s ∈ stateIds st,
      s ∈ stateIds (l.foldl (addAsset t) st) := by
  intro l
  induction l with
  | nil => intro st s hs; exact hs
  | cons a rest ih =>
    intro st s hs
    rw [List.foldl_cons]
    exact ih _ s (stateIds_addAsset_mono t st a s hs)

theorem stateIds_foldl_addAsset_self (t : Int) :
    ∀ (l : List AssetRow) (st : PackState), ∀ x ∈ l,
      x.id ∈ stateIds (l.foldl (addAsset t) st) := by
  intro l
  induction l with
  | nil => intro st x hx; exact absurd hx (List.not_mem_nil x)
  | cons a rest ih =>
    intro st x hx
    rw [List.foldl_cons]
    rcases List.mem_cons.1 hx with hx | hx
    · subst hx
      exact stateIds_foldl_addAsset_mono t rest _ x.id (stateIds_addAsset_self t st x)
    · exact ih _ x hx

/-- The page flush only touches `openPushes`, not the recorded ids. -/
theorem stateIds_pageEnd (st : PackState) : stateIds (pageEnd st) = stateIds st := by
  unfold pageEnd
  by_cases h : 0 < st.openArchive.assetIds.length
  · rw [if_pos h]; rfl
  · rw [if_neg h]

theorem stateIds_processPage_mono (g : List String → List AssetRow) (t : Int)
    (st : PackState) (page : List AssetRow) :
    ∀ s ∈ stateIds st, s ∈ stateIds (processPage g t st page) := by
  intro s hs
  unfold processPage
  rw [stateIds_pageEnd]
  exact stateIds_foldl_addAsset_mono t _ st s hs

theorem stateIds_processPage_self (g : List String → List AssetRow) (t : Int)
    (st : PackState) (page : List AssetRow) :
    ∀ x ∈ resolvePage g page, x.id ∈ stateIds (processPage g t st page) := by
  intro x hx
  unfold processPage
  rw [stateIds_pageEnd]
  exact stateIds_foldl_addAsset_self t _ st x hx

theorem stateIds_foldl_processPage_mono (g : List String → List AssetRow) (t : Int) :
    ∀ (pages : List (List AssetRow)) (st : PackState), ∀ s ∈ stateIds st,
      s ∈ stateIds (pages.foldl (processPage g t) st) := by
  intro pages
  induction pages with
  | nil => intro st s hs; exact hs
  | cons q rest ih =>
    intro st s hs
    rw [List.foldl_cons]
    exact ih _ s (stateIds_processPage_mono g t st q s hs)

theorem stateIds_foldl_processPage_self (g : List String → List AssetRow) (t : Int) :
    ∀ (pages : List (List AssetRow)) (st : PackState) (page : List AssetRow) (x : AssetRow),
      page ∈ pages → x ∈ resolvePage g page →
      x.id ∈ stateIds (pages.foldl (processPage g t) st) := by
  intro pages
  induction pages with
  | nil => intro st page x hpage _; exact absurd hpage (List.not_mem_nil page)
  | cons q rest ih =>
    intro st page x hpage hx
    rw [List.foldl_cons]
    rcases List.mem_cons.1 hpage with hpage | hpage
    · subst hpage
      exact stateIds_foldl_processPage_mono g t rest _ x.id
        (stateIds_processPage_self g t st page x hx)
    · exact ih _ page x hpage hx

/-- After a page flush, a non-empty open accumulator has been pushed at least
once. -/
theorem pageEnd_flush (st : PackState) :
    (pageEnd st).openArchive.assetIds ≠ [] → (pageEnd st).openPushes ≠ 0 := by
  unfold pageEnd
  by_cases h : 0 < st.openArchive.assetIds.length
  · rw [if_pos h]; intro _; exact Nat.succ_ne_zero _
  · rw [if_neg h]; intro hne
    exact absurd (List.length_pos.2 hne) h

theorem foldl_processPage_flush (g : List String → List AssetRow) (t : Int) :
    ∀ (pages : List (List AssetRow)) (st : PackState),
      (st.openArchive.assetIds ≠ [] → st.openPushes ≠ 0) →
      ((pages.foldl (processPage g t) st).openArchive.assetIds ≠ [] →
        (pages.foldl (processPage g t) st).openPushes ≠ 0) := by
  intro pages
  induction pages with
  | nil => intro st h; exact h
  | cons q rest ih =>
    intro st _
    rw [List.foldl_cons]
    exact ih _ (pageEnd_flush _)

/-- Every id recorded in the final state appears in some archive of the
response, provided a non-empty open accumulator was pushed at least once. -/
theorem stateIds_subset_final (st : PackState)
    (hf : st.openArchive.assetIds ≠ [] → st.openPushes ≠ 0) :
    ∀ s ∈ stateIds st, s ∈ ((finalArchives st).map (fun a => a.assetIds)).flatten := by
  intro s hs
  unfold stateIds at hs
  simp only [finalArchives, List.map_append, List.flatten_append]
  rcases List.mem_append.1 hs with hs | hs
  · exact List.mem_append_left _ hs
  · apply List.mem_append_right
    have hne : st.openArchive.assetIds ≠ [] := List.ne_nil_of_mem hs
    simp only [List.mem_flatten, List.mem_map]
    exact ⟨st.openArchive.assetIds,
      ⟨st.openArchive, List.mem_replicate.2 ⟨hf hne, rfl⟩, rfl⟩, hs⟩

/-- Every asset of every resolved page lands in some archive of the
`getDownloadInfo` response. -/
theorem resolved_asset_in_response (g : List String → List AssetRow) (sz : Option Int)
    (pages : List (List AssetRow)) (page : List AssetRow) (x : AssetRow)
    (hpage : page ∈ pages) (hx : x ∈ resolvePage g page) :
    x.id ∈ responseIds (getDownloadInfo g sz pages) := by
  simp only [responseIds, getDownloadInfo]
  apply stateIds_subset_final
  · apply foldl_processPage_flush
    intro h
    exact absurd rfl h
  · exact stateIds_foldl_processPage_self g (targetSizeOf sz) pages initPackState page x hpage hx

/-! ## The collision map refines occurrence counting -/

theorem mapGet_mapSet (m : List (List Char × Nat)) (k : List Char) (v : Nat) (b : List Char) :
    mapGet (mapSet m k v) b = if k = b then v else mapGet m b := by
  induction m with
  | nil =>
    unfold mapSet mapGet
    by_cases h : k = b
    · rw [if_pos h, if_pos h]
    · rw [if_neg h, if_neg h]; rfl
  | cons p rest ih =>
    obtain ⟨k', v'⟩ := p
    unfold mapSet
    by_cases h1 : k' = k
    · rw [if_pos h1]
      unfold mapGet
      by_cases h2 : k = b
      · rw [if_pos h2, if_pos h2]
      · rw [if_neg h2, if_neg h2, if_neg (h1 ▸ h2)]
    · rw [if_neg h1]
      unfold mapGet
      by_cases h2 : k' = b
      · have hkb : ¬ k = b := fun hkb => h1 (h2.trans hkb.symm)
        rw [if_pos h2, if_neg hkb, if_pos h2]
      · rw [if_neg h2, if_neg h2, ih]

/-- The stateful loop of `downloadArchive` computes the spec's
occurrence-count naming, as long as the collision map agrees with the counts
over the already-processed prefix. -/
theorem downloadEntryNamesGo_eq_spec :
    ∀ (assets prev : List ArchiveAsset) (m : List (List Char × Nat)),
      (∀ b, mapGet m b = prev.countP (fun x => decide (baseOf x = b))) →
      downloadEntryNamesGo m assets = specEntryNamesGo prev assets := by
  intro assets
  induction assets with
  | nil => intro prev m _; rfl
  | cons a rest ih =>
    intro prev m hm
    unfold downloadEntryNamesGo specEntryNamesGo
    have hbase : mapGet m (baseOf a) = prev.countP (fun x => decide (baseOf x = baseOf a)) :=
      hm _
    have hhead :
        (if mapGet m (a.originalFileName ++ extname a.originalPath) = 0
          then a.originalFileName ++ extname a.originalPath
          else a.originalFileName ++ '+' ::
            (natDigits (mapGet m (a.originalFileName ++ extname a.originalPath))
              ++ extname a.originalPath))
          = specEntryName prev a := by
      rw [show (a.originalFileName ++ extname a.originalPath) = baseOf a from rfl, hbase]
      rfl
    show (if mapGet m (a.originalFileName ++ extname a.originalPath) = 0
          then a.originalFileName ++ extname a.originalPath
          else a.originalFileName ++ '+' ::
            (natDigits (mapGet m (a.originalFileName ++ extname a.originalPath))
              ++ extname a.originalPath)) ::
        downloadEntryNamesGo
          (mapSet m (a.originalFileName ++ extname a.originalPath)
            (mapGet m (a.originalFileName ++ extname a.originalPath) + 1)) rest
      = specEntryName prev a :: specEntryNamesGo (prev ++ [a]) rest
    rw [hhead]
    congr 1
    apply ih
    intro b
    rw [show (a.originalFileName ++ extname a.originalPath) = baseOf a from rfl,
      mapGet_mapSet, List.countP_append]
    by_cases hb : baseOf a = b
    · rw [if_pos hb]
      simp [List.countP_cons, hb, hm b]
    · rw [if_neg hb]
      simp [List.countP_cons, hb, hm b]

/-! ## Decimal digit strings -/

theorem digitChar_val (k : Nat) (hk : k < 10) : (Nat.digitChar k).toNat - 48 = k := by
  interval_cases k <;> decide

theorem digitChar_isDig (k : Nat) (hk : k < 10) : isDig (Nat.digitChar k) = true := by
  interval_cases k <;> decide

theorem natVal_append_singleton (xs : List Char) (c : Char) :
    natVal (xs ++ [c]) = natVal xs * 10 + (c.toNat - 48) := by
  simp [natVal, List.foldl_append]

theorem natDigitsAux_natVal : ∀ (fuel n : Nat), n < fuel → natVal (natDigitsAux fuel n) = n := by
  intro fuel
  induction fuel with
  | zero => intro n h; omega
  | succ fuel ih =>
    intro n h
    unfold natDigitsAux
    by_cases h10 : n < 10
    · rw [if_pos h10]
      have : natVal [Nat.digitChar n] = (Nat.digitChar n).toNat - 48 := by
        simp [natVal]
      rw [this, digitChar_val n h10]
    · rw [if_neg h10]
      have hdiv : n / 10 < fuel := by omega
      rw [natVal_append_singleton, ih _ hdiv, digitChar_val (n % 10) (by omega)]
      omega

theorem natVal_natDigits (n : Nat) : natVal (natDigits n) = n :=
  natDigitsAux_natVal (n + 1) n (Nat.lt_succ_self n)

theorem natDigits_injective (m n : Nat) (h : natDigits m = natDigits n) : m = n := by
  rw [← natVal_natDigits m, h, natVal_natDigits]

theorem natDigitsAux_isDig : ∀ (fuel n : Nat), n < fuel →
    ∀ c ∈ natDigitsAux fuel n, isDig c = true := by
  intro fuel
  induction fuel with
  | zero => intro n h; omega
  | succ fuel ih =>
    intro n h c hc
    unfold natDigitsAux at hc
    by_cases h10 : n < 10
    · rw [if_pos h10] at hc
      rw [List.mem_singleton.1 hc]
      exact digitChar_isDig n h10
    · rw [if_neg h10] at hc
      rcases List.mem_append.1 hc with hc | hc
      · exact ih (n / 10) (by omega) c hc
      · rw [List.mem_singleton.1 hc]
        exact digitChar_isDig (n % 10) (by omega)

theorem natDigits_isDig (n : Nat) : ∀ c ∈ natDigits n, isDig c = true :=
  natDigitsAux_isDig (n + 1) n (Nat.lt_succ_self n)

theorem plus_not_in_natDigits (n : Nat) : '+' ∉ natDigits n := by
  intro h
  have h2 := natDigits_isDig n '+' h
  exact absurd h2 (by decide)

/-! ## Structure of extension strings -/

theorem lastDotIdx_drop : ∀ (b : List Char) (i : Nat), lastDotIdx b = some i →
    ∃ t, b.drop i = '.' :: t := by
  intro b
  induction b with
  | nil => intro i h; exact absurd h (by simp [lastDotIdx])
  | cons c rest ih =>
    intro i h
    unfold lastDotIdx at h
    cases hr : lastDotIdx rest with
    | some j =>
      rw [hr] at h
      have hij : i = j + 1 := (Option.some_inj.1 h).symm
      subst hij
      exact ih j hr
    | none =>
      rw [hr] at h
      by_cases hc : c = '.'
      · rw [if_pos hc] at h
        have hi0 : i = 0 := (Option.some_inj.1 h).symm
        subst hi0
        exact ⟨rest, by rw [hc]; rfl⟩
      · rw [if_neg hc] at h
        exact absurd h (by simp)

theorem extname_shape (p : List Char) : extname p = [] ∨ ∃ t, extname p = '.' :: t := by
  unfold extname extnameBase
  cases h : lastDotIdx (basenameOf p) with
  | none => exact Or.inl rfl
  | some i =>
    cases i with
    | zero => exact Or.inl rfl
    | succ j =>
      show (if basenameOf p = ['.', '.'] then [] else (basenameOf p).drop (j + 1)) = []
        ∨ ∃ t, (if basenameOf p = ['.', '.'] then [] else (basenameOf p).drop (j + 1)) = '.' :: t
      by_cases hb : basenameOf p = ['.', '.']
      · rw [if_pos hb]; exact Or.inl rfl
      · rw [if_neg hb]; exact Or.inr (lastDotIdx_drop _ _ h)

theorem extname_head_not_dig (p : List Char) :
    ∀ c, (extname p).head? = some c → isDig c = false := by
  intro c hc
  rcases extname_shape p with h | ⟨t, h⟩
  · rw [h] at hc; exact absurd hc (by simp)
  · rw [h] at hc
    have : c = '.' := by simpa using hc.symm
    rw [this]
    decide

/-! ## Injectivity lemmas for assembled names -/

/-- Two `plus`-free prefixes followed by `+` can only assemble equal strings
from equal parts. -/
theorem plusfree_append_inj : ∀ (n1 n2 x y : List Char), '+' ∉ n1 → '+' ∉ n2 →
    n1 ++ '+' :: x = n2 ++ '+' :: y → n1 = n2 ∧ x = y := by
  intro n1
  induction n1 with
  | nil =>
    intro n2 x y _ h2 he
    cases n2 with
    | nil => simpa using he
    | cons c n2' =>
      simp only [List.nil_append, List.cons_append, List.cons.injEq] at he
      exact absurd (he.1 ▸ List.mem_cons_self c n2') h2
  | cons c n1' ih =>
    intro n2 x y h1 h2 he
    cases n2 with
    | nil =>
      simp only [List.nil_append, List.cons_append, List.cons.injEq] at he
      exact absurd (he.1 ▸ List.mem_cons_self c n1') h1
    | cons d n2' =>
      simp only [List.cons_append, List.cons.injEq] at he
      have hr := ih n2' x y (fun h => h1 (List.mem_cons_of_mem c h))
        (fun h => h2 (List.mem_cons_of_mem d h)) he.2
      exact ⟨by rw [he.1, hr.1], hr.2⟩

/-- A digit run followed by a non-digit-headed (or empty) tail decomposes
uniquely. -/
theorem digits_append_inj : ∀ (d1 d2 e1 e2 : List Char),
    (∀ c ∈ d1, isDig c = true) → (∀ c ∈ d2, isDig c = true) →
    (∀ c, e1.head? = some c → isDig c = false) →
    (∀ c, e2.head? = some c → isDig c = false) →
    d1 ++ e1 = d2 ++ e2 → d1 = d2 ∧ e1 = e2 := by
  intro d1
  induction d1 with
  | nil =>
    intro d2 e1 e2 _ hd2 he1 _ he
    cases d2 with
    | nil => exact ⟨rfl, by simpa using he⟩
    | cons c d2' =>
      simp only [List.nil_append] at he
      have hhead : e1.head? = some c := by rw [he]; rfl
      have hf := he1 c hhead
      have ht := hd2 c (List.mem_cons_self c d2')
      rw [hf] at ht
      exact absurd ht (by decide)
  | cons c d1' ih =>
    intro d2 e1 e2 hd1 hd2 he1 he2 he
    cases d2 with
    | nil =>
      simp only [List.nil_append] at he
      have hhead : e2.head? = some c := by rw [← he]; rfl
      have hf := he2 c hhead
      have ht := hd1 c (List.mem_cons_self c d1')
      rw [hf] at ht
      exact absurd ht (by decide)
    | cons d d2' =>
      simp only [List.cons_append, List.cons.injEq] at he
      have hr := ih d2' e1 e2 (fun x hx => hd1 x (List.mem_cons_of_mem c hx))
        (fun x hx => hd2 x (List.mem_cons_of_mem d hx)) he1 he2 he.2
      exact ⟨by rw [he.1, hr.1], hr.2⟩

/-! ## Positional characterisation of the spec names -/

theorem specEntryNamesGo_length : ∀ (l prev : List ArchiveAsset),
    (specEntryNamesGo prev l).length = l.length := by
  intro l
  induction l with
  | nil => intro prev; rfl
  | cons a rest ih => intro prev; simp [specEntryNamesGo, ih]

theorem specEntryNamesGo_getElem : ∀ (l prev : List ArchiveAsset) (i : Nat)
    (h : i < l.length) (h' : i < (specEntryNamesGo prev l).length),
    (specEntryNamesGo prev l)[i] = specEntryName (prev ++ l.take i) l[i] := by
  intro l
  induction l with
  | nil => intro prev i h h'; exact absurd h (by simp)
  | cons a rest ih =>
    intro prev i h h'
    cases i with
    | zero => simp [specEntryNamesGo]
    | succ j =>
      have hj : j < rest.length := by simpa using h
      have hj' : j < (specEntryNamesGo (prev ++ [a]) rest).length := by
        rw [specEntryNamesGo_length]; exact hj
      show (specEntryNamesGo (prev ++ [a]) rest)[j] = _
      rw [ih (prev ++ [a]) j hj hj']
      simp [List.append_assoc]

/-- The count of earlier same-base assets grows strictly along matching
positions. -/
theorem countP_take_lt {α : Type} (l : List α) (p : α → Bool) (i j : Nat)
    (hi : i < l.length) (hij : i < j) (hj : j ≤ l.length) (hp : p l[i] = true) :
    (l.take i).countP p < (l.take j).countP p := by
  have h1 : (l.take (i + 1)).countP p = (l.take i).countP p + 1 := by
    rw [List.take_succ, List.getElem?_eq_getElem hi]
    simp only [Option.toList_some, List.countP_append, List.countP_cons, hp,
      List.countP_nil, if_true]
  have h2 : (l.take (i + 1)).countP p ≤ (l.take j).countP p := by
    have heq : l.take (i + 1) = (l.take j).take (i + 1) := by
      rw [List.take_take]
      congr 1
      omega
    rw [heq]
    exact (List.take_sublist _ _).countP_le p
  omega

/-- Two positions of an asset list whose display names and extensions are
`+`-free get distinct spec entry names. -/
theorem specEntryName_inj_at (assets : List ArchiveAsset) (i j : Nat)
    (hi : i < assets.length) (hj : j < assets.length) (hij : i < j)
    (hfi1 : '+' ∉ assets[i].originalFileName)
    (hfi2 : '+' ∉ extname assets[i].originalPath)
    (hfj1 : '+' ∉ assets[j].originalFileName)
    (hfj2 : '+' ∉ extname assets[j].originalPath) :
    specEntryName (assets.take i) assets[i]
      ≠ specEntryName (assets.take j) assets[j] := by
  intro hne
  simp only [specEntryName] at hne
  have hplus_i : '+' ∉ baseOf assets[i] := by
    unfold baseOf
    intro hmem
    rcases List.mem_append.1 hmem with hmem | hmem
    · exact hfi1 hmem
    · exact hfi2 hmem
  have hplus_j : '+' ∉ baseOf assets[j] := by
    unfold baseOf
    intro hmem
    rcases List.mem_append.1 hmem with hmem | hmem
    · exact hfj1 hmem
    · exact hfj2 hmem
  by_cases hi0 : (assets.take i).countP (fun x => decide (baseOf x = baseOf assets[i])) = 0
    <;> by_cases hj0 : (assets.take j).countP (fun x => decide (baseOf x = baseOf assets[j])) = 0
  · -- both first occurrences: equal base names, but then position j is not first
    rw [if_pos hi0, if_pos hj0] at hne
    have hlt := countP_take_lt assets (fun x => decide (baseOf x = baseOf assets[j]))
      i j hi hij (le_of_lt hj) (decide_eq_true hne)
    omega
  · -- base name versus a name containing '+'
    rw [if_pos hi0, if_neg hj0] at hne
    exact hplus_i (hne ▸ List.mem_append_right _ (List.mem_cons_self _ _))
  · rw [if_neg hi0, if_pos hj0] at hne
    exact hplus_j (hne ▸ List.mem_append_right _ (List.mem_cons_self _ _))
  · -- both modified names: decompose
    rw [if_neg hi0, if_neg hj0] at hne
    obtain ⟨hfn, hrest⟩ := plusfree_append_inj _ _ _ _ hfi1 hfj1 hne
    obtain ⟨hd, he⟩ := digits_append_inj _ _ _ _ (natDigits_isDig _) (natDigits_isDig _)
      (extname_head_not_dig _) (extname_head_not_dig _) hrest
    have hk := natDigits_injective _ _ hd
    have hbase : baseOf assets[i] = baseOf assets[j] := by
      unfold baseOf
      rw [hfn, he]
    have hlt := countP_take_lt assets (fun x => decide (baseOf x = baseOf assets[j]))
      i j hi hij (le_of_lt hj) (decide_eq_true hbase)
    simp only [hbase] at hk
    omega

/-! ## Claim theorems -/

/-- Claim C1: refuted — `getDownloadInfo` pushes the still-open accumulator
object at every page boundary without resetting it, so with two one-asset
pages (sizes 1 and 1, threshold 10) the same archive object appears twice in
the response: both ids are duplicated and `totalSize` is 4 instead of the
input sum 2. -/
theorem c1_duplicate_archive_eval :
    getDownloadInfo (fun _ => []) (some 10)
        [[{ id := "a", livePhotoVideoId := none, fileSizeInByte := some 1 }],
         [{ id := "b", livePhotoVideoId := none, fileSizeInByte := some 1 }]]
      = { totalSize := 4,
          archives := [{ size := 2, assetIds := ["a", "b"] },
                       { size := 2, assetIds := ["a", "b"] }] } := by decide

/-- Claim C2, counterexample: with threshold 100 and two one-asset pages of
sizes 2 and 3, the response has two archives and the non-last one has size
5 ≤ 100 — a sealed, non-final archive that never exceeded the threshold. -/
theorem c2_under_threshold_counterexample :
    ((getDownloadInfo (fun _ => []) (some 100)
          [[{ id := "c", livePhotoVideoId := none, fileSizeInByte := some 2 }],
           [{ id := "d", livePhotoVideoId := none, fileSizeInByte := some 3 }]]).archives.length = 2)
    ∧ ((getDownloadInfo (fun _ => []) (some 100)
          [[{ id := "c", livePhotoVideoId := none, fileSizeInByte := some 2 }],
           [{ id := "d", livePhotoVideoId := none, fileSizeInByte := some 3 }]]).archives.dropLast.all
        (fun a => decide (100 < a.size))) = false := by decide

/-- Claim C2, amended: for a single-page input (as produced by explicit
asset-id selection) every archive except possibly the last is sealed strictly
over the threshold; page-boundary flushes, absent here, are what can emit
under-threshold archives mid-sequence. -/
theorem c2_single_page_threshold (g : List String → List AssetRow) (t : Int)
    (page : List AssetRow) (ht : 0 < t) :
    ∀ a ∈ (getDownloadInfo g (some t) [page]).archives.dropLast, t < a.size := by
  intro a ha
  have htgt : targetSizeOf (some t) = t := targetSizeOf_some_ne_zero t ht.ne'
  simp only [getDownloadInfo, htgt, List.foldl_cons, List.foldl_nil] at ha
  unfold processPage at ha
  have key := foldl_addAsset_single_page t (resolvePage g page) initPackState rfl
    (by intro x hx; simp [initPackState] at hx)
  unfold pageEnd at ha
  by_cases h : 0 < ((resolvePage g page).foldl (addAsset t) initPackState).openArchive.assetIds.length
  · rw [if_pos h] at ha
    simp only [finalArchives, key.1, Nat.zero_add, List.replicate_one] at ha
    rw [List.dropLast_concat] at ha
    exact key.2 a ha
  · rw [if_neg h] at ha
    simp only [finalArchives, key.1, List.replicate_zero, List.append_nil] at ha
    exact key.2 a ((List.dropLast_sublist _).subset ha)

/-- Claim C2, witness for the amended theorem at a concrete single page. -/
theorem c2_single_page_threshold_witness :
    (0 : Int) < 5 ∧
      (5 : Int) < (DownloadArchiveInfo.mk 10 ["a"]).size :=
  ⟨by decide,
    c2_single_page_threshold (fun _ => []) 5
      [{ id := "a", livePhotoVideoId := none, fileSizeInByte := some 10 },
       { id := "b", livePhotoVideoId := none, fileSizeInByte := some 1 }]
      (by decide) (DownloadArchiveInfo.mk 10 ["a"]) (by decide)⟩

/-- Claim C3, counterexample: a live photo of size 20 with threshold 10 — the
fetched motion asset is appended at the end of the page, the photo seals an
archive on its own, and the motion asset lands in a different archive. -/
theorem c3_separate_archives_counterexample :
    (getDownloadInfo (fun _ => [{ id := "m", livePhotoVideoId := none, fileSizeInByte := some 1 }])
          (some 10) [[{ id := "p", livePhotoVideoId := some "m", fileSizeInByte := some 20 }]]).archives
        = [{ size := 20, assetIds := ["p"] }, { size := 1, assetIds := ["m"] }]
    ∧ ¬ ∃ arch ∈ (getDownloadInfo
          (fun _ => [{ id := "m", livePhotoVideoId := none, fileSizeInByte := some 1 }])
          (some 10) [[{ id := "p", livePhotoVideoId := some "m", fileSizeInByte := some 20 }]]).archives,
        "p" ∈ arch.assetIds ∧ "m" ∈ arch.assetIds := by decide

/-- Claim C3, amended: the motion asset referenced by a live photo is fetched
and appended to the photo's page, so it appears in some archive of the same
response — but not necessarily in the same archive as the photo. -/
theorem c3_motion_in_response (g : List String → List AssetRow) (sz : Option Int)
    (pages : List (List AssetRow)) (page : List AssetRow) (p ma : AssetRow) (m : String)
    (hpage : page ∈ pages) (hp : p ∈ page) (hlive : p.livePhotoVideoId = some m)
    (hm : m ≠ "") (hma : ma ∈ g (motionIdsOf page)) :
    p.id ∈ responseIds (getDownloadInfo g sz pages)
      ∧ ma.id ∈ responseIds (getDownloadInfo g sz pages) := by
  have hmm : m ∈ motionIdsOf page := by
    unfold motionIdsOf
    rw [List.mem_filter]
    exact ⟨List.mem_filterMap.2 ⟨p, hp, hlive⟩, by simpa using hm⟩
  have hlen : 0 < (motionIdsOf page).length := List.length_pos.2 (List.ne_nil_of_mem hmm)
  have hres : resolvePage g page = page ++ g (motionIdsOf page) := by
    unfold resolvePage
    rw [if_pos hlen]
  constructor
  · exact resolved_asset_in_response g sz pages page p hpage
      (hres ▸ List.mem_append_left _ hp)
  · exact resolved_asset_in_response g sz pages page ma hpage
      (hres ▸ List.mem_append_right _ hma)

/-- Claim C3, witness for the amended theorem at the counterexample input:
both the photo id and the motion id are present in the response. -/
theorem c3_motion_in_response_witness :
    "p" ∈ responseIds (getDownloadInfo
        (fun _ => [{ id := "m", livePhotoVideoId := none, fileSizeInByte := some 1 }])
        (some 10) [[{ id := "p", livePhotoVideoId := some "m", fileSizeInByte := some 20 }]])
    ∧ "m" ∈ responseIds (getDownloadInfo
        (fun _ => [{ id := "m", livePhotoVideoId := none, fileSizeInByte := some 1 }])
        (some 10) [[{ id := "p", livePhotoVideoId := some "m", fileSizeInByte := some 20 }]]) :=
  c3_motion_in_response
    (fun _ => [{ id := "m", livePhotoVideoId := none, fileSizeInByte := some 1 }]) (some 10)
    [[{ id := "p", livePhotoVideoId := some "m", fileSizeInByte := some 20 }]]
    [{ id := "p", livePhotoVideoId := some "m", fileSizeInByte := some 20 }]
    { id := "p", livePhotoVideoId := some "m", fileSizeInByte := some 20 }
    { id := "m", livePhotoVideoId := none, fileSizeInByte := some 1 } "m"
    (by decide) (by decide) rfl (by decide) (by decide)

/-- Claim C4, counterexample: a caller-supplied threshold of exactly 0 is
falsy in JS and is replaced by the 4 GiB default, so three assets of size 1
yield a single archive of three assets, not three singleton archives. -/
theorem c4_zero_threshold_counterexample :
    (getDownloadInfo (fun _ => []) (some 0)
        [[{ id := "a", livePhotoVideoId := none, fileSizeInByte := some 1 },
          { id := "b", livePhotoVideoId := none, fileSizeInByte := some 1 },
          { id := "c", livePhotoVideoId := none, fileSizeInByte := some 1 }]]).archives
      = [{ size := 3, assetIds := ["a", "b", "c"] }]
    ∧ ¬ ((getDownloadInfo (fun _ => []) (some 0)
        [[{ id := "a", livePhotoVideoId := none, fileSizeInByte := some 1 },
          { id := "b", livePhotoVideoId := none, fileSizeInByte := some 1 },
          { id := "c", livePhotoVideoId := none, fileSizeInByte := some 1 }]]).archives.length = 3) := by
  decide

/-- Claim C4, amended: for a caller-supplied threshold strictly below 0 (a
truthy JS value, so it is kept) and non-negative asset sizes, every asset
seals immediately: the response is one singleton archive per resolved asset,
in order.  A threshold of exactly 0 is replaced by the default instead. -/
theorem c4_negative_threshold_singletons (g : List String → List AssetRow) (t : Int)
    (pages : List (List AssetRow)) (ht : t < 0)
    (hs : ∀ x ∈ resolvedAssets g pages, 0 ≤ jsSize x) :
    (getDownloadInfo g (some t) pages).archives
      = (resolvedAssets g pages).map (fun x => { size := jsSize x, assetIds := [x.id] }) := by
  have htgt : targetSizeOf (some t) = t := targetSizeOf_some_ne_zero t ht.ne
  have h0 : initPackState
      = { archives := ([] : List DownloadArchiveInfo),
          openArchive := { size := 0, assetIds := [] }, openPushes := 0 } := rfl
  simp only [getDownloadInfo, htgt, h0, foldl_processPage_neg_target g t ht pages hs []]
  simp [finalArchives]

/-- Claim C4, witness for the amended theorem: threshold −1, three assets of
size 1, three singleton archives. -/
theorem c4_negative_threshold_singletons_witness :
    (-1 : Int) < 0 ∧
      (getDownloadInfo (fun _ => []) (some (-1))
          [[{ id := "a", livePhotoVideoId := none, fileSizeInByte := some 1 },
            { id := "b", livePhotoVideoId := none, fileSizeInByte := some 1 },
            { id := "c", livePhotoVideoId := none, fileSizeInByte := some 1 }]]).archives
        = [{ size := 1, assetIds := ["a"] },
           { size := 1, assetIds := ["b"] },
           { size := 1, assetIds := ["c"] }] :=
  ⟨by decide,
    (c4_negative_threshold_singletons (fun _ => []) (-1)
        [[{ id := "a", livePhotoVideoId := none, fileSizeInByte := some 1 },
          { id := "b", livePhotoVideoId := none, fileSizeInByte := some 1 },
          { id := "c", livePhotoVideoId := none, fileSizeInByte := some 1 }]]
        (by decide) (by decide)).trans (by decide)⟩

/-- Claim C5: with none of `assetIds`, `albumId`, `userId` (JS-)truthy the
request fails with the `BadRequestException` and performs no external call at
all; otherwise the mode is picked in the fixed priority order asset ids >
album > user, and the trace is exactly one matching permission check followed
by one store access; any error outcome has an empty trace. -/
theorem c5_selection_priority (dto : DownloadDto) :
    (jsTruthyList dto.assetIds = false → jsTruthyStr dto.albumId = false →
        jsTruthyStr dto.userId = false →
        getDownloadAssets dto = ([], Except.error "assetIds, albumId, or userId is required"))
    ∧ (jsTruthyList dto.assetIds = true →
        getDownloadAssets dto
          = ([DownloadStep.checkAssetDownload, DownloadStep.storeGetByIds],
             Except.ok DownloadMode.byAssetIds))
    ∧ (jsTruthyList dto.assetIds = false → jsTruthyStr dto.albumId = true →
        getDownloadAssets dto
          = ([DownloadStep.checkAlbumDownload, DownloadStep.storePageByAlbum],
             Except.ok DownloadMode.byAlbum))
    ∧ (jsTruthyList dto.assetIds = false → jsTruthyStr dto.albumId = false →
        jsTruthyStr dto.userId = true →
        getDownloadAssets dto
          = ([DownloadStep.checkLibraryDownload, DownloadStep.storePageByUser],
             Except.ok DownloadMode.byUser))
    ∧ (∀ steps e, getDownloadAssets dto = (steps, Except.error e) → steps = []) := by
  refine ⟨?_, ?_, ?_, ?_, ?_⟩
  · intro h1 h2 h3; simp [getDownloadAssets, h1, h2, h3]
  · intro h1; simp [getDownloadAssets, h1]
  · intro h1 h2; simp [getDownloadAssets, h1, h2]
  · intro h1 h2 h3; simp [getDownloadAssets, h1, h2, h3]
  · intro steps e h
    by_cases h1 : jsTruthyList dto.assetIds
    · simp [getDownloadAssets, h1] at h
    · by_cases h2 : jsTruthyStr dto.albumId
      · simp [getDownloadAssets, h1, h2] at h
      · by_cases h3 : jsTruthyStr dto.userId
        · simp [getDownloadAssets, h1, h2, h3] at h
        · simp only [getDownloadAssets, h1, h2, h3, Bool.false_eq_true, if_false,
            Prod.mk.injEq] at h
          exact h.1.symm

/-- Claim C5, witness: the all-absent request yields the error with an empty
external-call trace. -/
theorem c5_selection_priority_witness :
    getDownloadAssets { assetIds := none, albumId := none, userId := none, archiveSize := none }
      = ([], Except.error "assetIds, albumId, or userId is required") :=
  (c5_selection_priority _).1 rfl rfl rfl

/-- Claim C6: for `years = N ≥ 1` the service builds exactly `N` lookups, one
per `yearsAgo` in `1..N`; the response is the ascending-`yearsAgo` list of
exactly those years with a non-empty lookup (empties dropped after all
lookups resolve, order preserved by `Promise.all`), each entry titled
"1 year since..." / "k years since..." and carrying the mapped assets. -/
theorem c6_memory_lane_order {α β : Type} (getByDate : Nat → List α) (mapAsset : α → β)
    (years : Int) (h : 1 ≤ years) :
    (memoryLaneRequests getByDate mapAsset years).length = years.toNat
    ∧ ((years.toNat : Int)) = years
    ∧ getMemoryLane getByDate mapAsset years
        = (((List.range years.toNat).map (fun i => i + 1)).filter
              (fun k => decide ((getByDate k).length > 0))).map
            (fun k => { title := memoryLaneTitle k, assets := (getByDate k).map mapAsset })
    ∧ memoryLaneTitle 1 = "1 year since..."
    ∧ ∀ k, 1 < k → memoryLaneTitle k = toString k ++ " years since..." := by
  refine ⟨?_, Int.toNat_of_nonneg (by omega), ?_, rfl, ?_⟩
  · simp [memoryLaneRequests]
  · unfold getMemoryLane memoryLaneRequests
    have hmm : (List.range years.toNat).map (fun i => onRequest getByDate mapAsset (i + 1))
        = ((List.range years.toNat).map (fun i => i + 1)).map (onRequest getByDate mapAsset) := by
      rw [List.map_map]
      rfl
    rw [hmm, List.filter_map]
    have hcong :
        ((List.range years.toNat).map (fun i => i + 1)).filter
            ((fun result => decide (result.assets.length > 0)) ∘ onRequest getByDate mapAsset)
          = ((List.range years.toNat).map (fun i => i + 1)).filter
              (fun k => decide ((getByDate k).length > 0)) := by
      apply List.filter_congr
      intro k _
      simp [onRequest]
    rw [hcong]
    rfl
  · intro k hk
    unfold memoryLaneTitle
    rw [if_pos hk, String.append_assoc, String.append_assoc]
    exact congrArg (fun s => toString k ++ s) rfl

/-- Claim C6, witness: `years = 3` with assets only 1 and 3 years back gives
exactly the two entries, 1-year first, 2-year entry dropped. -/
theorem c6_memory_lane_order_witness :
    (1 : Int) ≤ 3
    ∧ getMemoryLane (fun k => if k = 1 then ["a"] else if k = 3 then ["b"] else [])
          (fun x => x) 3
        = [{ title := "1 year since...", assets := ["a"] },
           { title := "3 years since...", assets := ["b"] }] :=
  ⟨by decide, by
    have h := (c6_memory_lane_order
      (fun k => if k = 1 then ["a"] else if k = 3 then ["b"] else []) (fun x => x) 3
      (by decide)).2.2.1
    rw [h]
    decide⟩

/-- Claim C7: a non-positive year count fails the memory-lane operation with
`InvalidRequest` (request validation modelled from the spec, see
`validateMemoryLaneYears`). -/
theorem c7_memory_lane_invalid_years {α β : Type} (getByDate : Nat → List α)
    (mapAsset : α → β) (years : Int) (h : years ≤ 0) :
    getMemoryLaneChecked getByDate mapAsset years = Except.error "InvalidRequest" := by
  simp [getMemoryLaneChecked, validateMemoryLaneYears, h]

/-- Claim C7, witness at `years = 0`. -/
theorem c7_memory_lane_invalid_years_witness :
    (0 : Int) ≤ 0 ∧
      getMemoryLaneChecked (fun _ => ([] : List Nat)) (fun x => x) 0
        = Except.error "InvalidRequest" :=
  ⟨le_refl 0, c7_memory_lane_invalid_years _ _ 0 (le_refl 0)⟩

/-- Claim C8: the entry names of `downloadArchive` follow the spec's scheme —
`<displayName><ext>` with `ext` from the original path, and on the k-th
repetition (k ≥ 1) of a base name within this archive,
`<displayName>+k<ext>`; in particular three `IMG_0001` / `.jpg` assets give
`IMG_0001.jpg`, `IMG_0001+1.jpg`, `IMG_0001+2.jpg` in input order. -/
theorem c8_entry_name_scheme :
    (∀ assets : List ArchiveAsset, downloadEntryNames assets = specEntryNames assets)
    ∧ downloadEntryNames
        [{ originalPath := "u/IMG_0001.jpg".toList, originalFileName := "IMG_0001".toList },
         { originalPath := "u/IMG_0001.jpg".toList, originalFileName := "IMG_0001".toList },
         { originalPath := "u/IMG_0001.jpg".toList, originalFileName := "IMG_0001".toList }]
      = ["IMG_0001.jpg".toList, "IMG_0001+1.jpg".toList, "IMG_0001+2.jpg".toList] := by
  constructor
  · intro assets
    exact downloadEntryNamesGo_eq_spec assets [] [] (fun b => rfl)
  · decide

/-- Claim C9, counterexample: the naming scheme is not collision-proof for
arbitrary display names — a first asset displayed `IMG+1` collides with the
renamed second occurrence of an asset displayed `IMG` (same `.jpg`
extension), so the archive gets two entries named `IMG+1.jpg`. -/
theorem c9_name_collision_counterexample :
    downloadEntryNames
        [{ originalPath := "x.jpg".toList, originalFileName := "IMG+1".toList },
         { originalPath := "x.jpg".toList, originalFileName := "IMG".toList },
         { originalPath := "x.jpg".toList, originalFileName := "IMG".toList }]
      = ["IMG+1.jpg".toList, "IMG.jpg".toList, "IMG+1.jpg".toList]
    ∧ ¬ (downloadEntryNames
        [{ originalPath := "x.jpg".toList, originalFileName := "IMG+1".toList },
         { originalPath := "x.jpg".toList, originalFileName := "IMG".toList },
         { originalPath := "x.jpg".toList, originalFileName := "IMG".toList }]).Nodup := by
  decide

/-- Claim C9, amended: within one `downloadArchive` invocation the entry
names are pairwise distinct provided no display name and no extension
contains the character `+` (the collision-counter separator); without that
restriction a display name ending in `+k` can collide with a renamed
occurrence of another base name. -/
theorem c9_plus_free_nodup (assets : List ArchiveAsset)
    (hfree : ∀ a ∈ assets, '+' ∉ a.originalFileName ∧ '+' ∉ extname a.originalPath) :
    (downloadEntryNames assets).Nodup := by
  have heqspec : downloadEntryNames assets = specEntryNames assets :=
    downloadEntryNamesGo_eq_spec assets [] [] (fun b => rfl)
  rw [heqspec]
  have hlen : (specEntryNames assets).length = assets.length :=
    specEntryNamesGo_length assets []
  rw [List.nodup_iff_injective_get]
  intro x y hxy
  obtain ⟨i, hi'⟩ := x
  obtain ⟨j, hj'⟩ := y
  have hi : i < assets.length := by rw [← hlen]; exact hi'
  have hj : j < assets.length := by rw [← hlen]; exact hj'
  have hgi : (specEntryNames assets).get ⟨i, hi'⟩
      = specEntryName (assets.take i) assets[i] := by
    have h := specEntryNamesGo_getElem assets [] i hi hi'
    simpa using h
  have hgj : (specEntryNames assets).get ⟨j, hj'⟩
      = specEntryName (assets.take j) assets[j] := by
    have h := specEntryNamesGo_getElem assets [] j hj hj'
    simpa using h
  rw [hgi, hgj] at hxy
  rcases Nat.lt_trichotomy i j with h | h | h
  · exact absurd hxy (specEntryName_inj_at assets i j hi hj h
      (hfree _ (List.getElem_mem hi)).1 (hfree _ (List.getElem_mem hi)).2
      (hfree _ (List.getElem_mem hj)).1 (hfree _ (List.getElem_mem hj)).2)
  · exact Fin.ext h
  · exact absurd hxy.symm (specEntryName_inj_at assets j i hj hi h
      (hfree _ (List.getElem_mem hj)).1 (hfree _ (List.getElem_mem hj)).2
      (hfree _ (List.getElem_mem hi)).1 (hfree _ (List.getElem_mem hi)).2)

/-- Claim C9, witness for the amended theorem: two same-named `+`-free assets
get the distinct entries `IMG_0001.jpg` and `IMG_0001+1.jpg`. -/
theorem c9_plus_free_nodup_witness :
    (downloadEntryNames
        [{ originalPath := "a/IMG_0001.jpg".toList, originalFileName := "IMG_0001".toList },
         { originalPath := "a/IMG_0001.jpg".toList, originalFileName := "IMG_0001".toList }]).Nodup :=
  c9_plus_free_nodup
    [{ originalPath := "a/IMG_0001.jpg".toList, originalFileName := "IMG_0001".toList },
     { originalPath := "a/IMG_0001.jpg".toList, originalFileName := "IMG_0001".toList }]
    (by decide)

/-- Claim C10: every archive of every `getDownloadInfo` response has a
non-empty `assetIds` list — threshold seals always carry the asset just
added, and the page flush only pushes a non-empty accumulator. -/
theorem c10_archives_nonempty (g : List String → List AssetRow) (sz : Option Int)
    (pages : List (List AssetRow)) :
    ∀ a ∈ (getDownloadInfo g sz pages).archives, a.assetIds ≠ [] := by
  intro a ha
  unfold getDownloadInfo at ha
  have key := foldl_processPage_nonempty g (targetSizeOf sz) pages initPackState
    (by intro x hx; simp [initPackState] at hx)
    (by intro h; exact absurd rfl h)
  simp only [finalArchives, List.mem_append, List.mem_replicate] at ha
  rcases ha with ha | ⟨hp, ha⟩
  · exact key.1 a ha
  · subst ha; exact key.2 hp

/-- Claim C10, witness at a concrete one-page input. -/
theorem c10_archives_nonempty_witness :
    (DownloadArchiveInfo.mk 1 ["a"])
        ∈ (getDownloadInfo (fun _ => []) (some 10)
            [[{ id := "a", livePhotoVideoId := none, fileSizeInByte := some 1 }]]).archives
    ∧ (DownloadArchiveInfo.mk 1 ["a"]).assetIds ≠ [] :=
  ⟨by decide,
    c10_archives_nonempty (fun _ => []) (some 10)
      [[{ id := "a", livePhotoVideoId := none, fileSizeInByte := some 1 }]]
      (DownloadArchiveInfo.mk 1 ["a"]) (by decide)⟩
